import Mathlib

/-!
Verification of the daily-ipo-monitor analysis pipeline.

This file gives a shallow embedding, in Lean 4, of the pure logic of
src/ipo_monitor.py (price parsing, offer sizing, qualification analysis,
report rendering, subject-line construction) and of the dedupe logic of the
daily loop in src/run_scheduler.py, and proves properties of the embedded
definitions.

Modelling conventions:
- Python floats are modelled as rationals.  The builtin float(str)
  conversion is modelled by a parser for the decimal core of the Python float
  grammar (optional surrounding whitespace, optional sign, digits with an
  optional fraction part, optional e/E exponent); the inf/nan spellings and
  digit-group underscores accepted by CPython are outside the model.
  The parser is split into a purely syntactic stage producing sign, digit
  values and exponent (kernel-computable) and a final valuation into the
  rationals.
- Python dicts holding IPO records are modelled as a structure whose fields
  are the five upstream keys the program reads, each optional (a missing
  key reads as None), plus the one derived key the analyzer may attach.
- Python string operations used by the program (strip, replace of a
  one-character pattern by the empty string, split on a one-character
  separator, upper, "\n".join, membership test) are modelled by explicit
  structural recursions over the character list of the string.
-/

/-! ## Python string primitives -/

/-- Models str.strip() with no arguments: remove leading and trailing
whitespace characters. -/
def pyStripList (cs : List Char) : List Char :=
  ((cs.dropWhile Char.isWhitespace).reverse.dropWhile Char.isWhitespace).reverse

/-- Models str.replace(c, "") for a one-character pattern: remove every
occurrence of the character. -/
def removeAllChar (c : Char) (cs : List Char) : List Char :=
  cs.filter (fun x => x ≠ c)

/-- Models str.split(sep) for a one-character separator sep satisfying the
predicate p: cut at every separator occurrence, keeping empty pieces, so
that the empty string splits to one empty piece. -/
def splitOnCharPred (p : Char → Bool) : List Char → List (List Char)
  | [] => [[]]
  | c :: rest =>
    if p c then [] :: splitOnCharPred p rest
    else
      match splitOnCharPred p rest with
      | [] => [[c]]
      | h :: t => (c :: h) :: t

/-- Models str.upper() (ASCII letters, which covers the exchange codes the
program compares against). -/
def pyUpper (s : String) : String :=
  ⟨s.data.map Char.toUpper⟩

/-- Models "\n".join(lines). -/
def joinLines : List String → String
  | [] => ""
  | [x] => x
  | x :: y :: rest => x ++ "\n" ++ joinLines (y :: rest)

/-- Helper for thousands grouping: on a reversed digit list, insert a comma
after every three characters. -/
def commaRev : List Char → List Char
  | a :: b :: c :: d :: rest => a :: b :: c :: ',' :: commaRev (d :: rest)
  | cs => cs

/-- Models the Python format spec "{n:,}" for a non-negative integer:
decimal digits grouped in threes by commas. -/
def pyThousands (n : Nat) : String :=
  ⟨(commaRev (Nat.repr n).data.reverse).reverse⟩

/-- The substring relation on strings, spelled out on character data. -/
def strContains (pat s : String) : Prop :=
  ∃ pre suf, s.data = pre ++ (pat.data ++ suf)

/-! ## Model of Python float(str) on its decimal core -/

/-- Value of a list of decimal digit characters read in base 10. -/
def natOfDigits (cs : List Char) : Nat :=
  cs.foldl (fun a c => 10 * a + (c.toNat - 48)) 0

/-- Syntactic result of float(str): mantissa sign, integer-part value,
fraction-part value and length, and exponent.  All components are discrete,
so equality of parts is kernel-decidable. -/
structure DecParts where
  negSign : Bool
  ipVal : Nat
  fpVal : Nat
  fpLen : Nat
  ex : Int
deriving DecidableEq, Repr

/-- Rational value denoted by a syntactic float-parse result. -/
def DecParts.val (d : DecParts) : ℚ :=
  let m : ℚ := (d.ipVal : ℚ) + (d.fpVal : ℚ) / 10 ^ d.fpLen
  let s : ℚ := if d.negSign then -m else m
  if 0 ≤ d.ex then s * 10 ^ d.ex.toNat else s / 10 ^ (-d.ex).toNat

/-- Parse an unsigned mantissa: digits with an optional '.' and fraction
digits, at least one digit in total.  Returns integer value, fraction value
and fraction length. -/
def parseMantissaCore (cs : List Char) : Option (Nat × Nat × Nat) :=
  let ip := cs.takeWhile Char.isDigit
  let rest := cs.dropWhile Char.isDigit
  match rest with
  | [] => if ip.isEmpty then none else some (natOfDigits ip, 0, 0)
  | '.' :: fp =>
      if fp.all Char.isDigit && !(ip.isEmpty && fp.isEmpty) then
        some (natOfDigits ip, natOfDigits fp, fp.length)
      else none
  | _ => none

/-- Parse a mantissa with an optional leading sign. -/
def parseSignedMantissa (cs : List Char) : Option (Bool × Nat × Nat × Nat) :=
  match cs with
  | [] => (parseMantissaCore []).map (fun x => (false, x))
  | c :: rest =>
    if c = '+' then (parseMantissaCore rest).map (fun x => (false, x))
    else if c = '-' then (parseMantissaCore rest).map (fun x => (true, x))
    else (parseMantissaCore (c :: rest)).map (fun x => (false, x))

/-- Parse the digits of an exponent with an optional leading sign. -/
def parseExpDigits (cs : List Char) : Option Int :=
  match cs with
  | [] => none
  | c :: rest =>
    if c = '+' then
      if !rest.isEmpty && rest.all Char.isDigit then some (natOfDigits rest) else none
    else if c = '-' then
      if !rest.isEmpty && rest.all Char.isDigit then
        some (-(natOfDigits rest : Int))
      else none
    else
      if (c :: rest).all Char.isDigit then some (natOfDigits (c :: rest)) else none

/-- Whether a character introduces the exponent of a float literal. -/
def isExpChar (c : Char) : Bool := c = 'e' || c = 'E'

/-- Syntactic stage of float(str): strip surrounding whitespace, split off
an optional exponent at a single 'e' or 'E', and parse both parts. -/
def pyFloatParts (cs : List Char) : Option DecParts :=
  let cs := pyStripList cs
  match splitOnCharPred isExpChar cs with
  | [m] => (parseSignedMantissa m).map (fun x => ⟨x.1, x.2.1, x.2.2.1, x.2.2.2, 0⟩)
  | [m, e] =>
      match parseSignedMantissa m, parseExpDigits e with
      | some x, some ex => some ⟨x.1, x.2.1, x.2.2.1, x.2.2.2, ex⟩
      | _, _ => none
  | _ => none

/-- Models float(str) on the decimal core of the Python float grammar:
the parsed rational value, or none where CPython raises ValueError. -/
def pyFloat (cs : List Char) : Option ℚ :=
  (pyFloatParts cs).map DecParts.val

/-! ## Data model -/

/-- The numberOfShares field of an upstream record may hold a string or a
number; the number case is modelled as an integer, rendered by str() as its
plain decimal spelling. -/
inductive ShareField where
  | s : String → ShareField
  | n : Int → ShareField
deriving DecidableEq, Repr

/-- Character data of str(shares). -/
def ShareField.toChars : ShareField → List Char
  | .s v => v.data
  | .n v => (Int.repr v).data

/-- An upstream IPO record: the five keys read by src/ipo_monitor.py, each
optional (a missing dict key reads as None), plus the derived
_offer_amount_usd key, none while unset. -/
structure IpoRecord where
  symbol : Option String := none
  name : Option String := none
  exchange : Option String := none
  price : Option String := none
  numberOfShares : Option ShareField := none
  offerAmountUsd : Option ℚ := none
deriving DecidableEq, Repr

/-- The stats dict built by analyze_ipos. -/
structure AnalysisStats where
  total_ipos : Nat
  us_ipos : Nat
  missing_data : Nat
  qualified : Nat
deriving DecidableEq, Repr

/-! ## Business logic of src/ipo_monitor.py -/

/-- The compiled-in threshold MIN_OFFER_AMOUNT_USD = 200_000_000. -/
def MIN_OFFER_AMOUNT_USD : Nat := 200000000

/-- The compiled-in exchange set US_EXCHANGES. -/
def US_EXCHANGES : List String := ["NASDAQ", "NYSE", "AMEX"]

/-- The cleaned form of a price string inside parse_price:
price_field.strip().replace("$", "").replace(",", ""). -/
def cleanedPrice (s : String) : List Char :=
  removeAllChar ',' (removeAllChar '$' (pyStripList s.data))

/-- The non-empty stripped segments of the cleaned price string split on
hyphens: [p.strip() for p in price_field.split("-") if p.strip()]. -/
def hyphenSegments (s : String) : List (List Char) :=
  (((splitOnCharPred (fun c => c = '-') (cleanedPrice s)).map pyStripList).filter
    (fun q => !q.isEmpty))

/-- Syntactic stage of parse_price from src/ipo_monitor.py lines 58-79:
None or empty input is unparseable; otherwise clean the string; if it
contains a hyphen take the last non-empty stripped segment and float() it,
else float() the whole cleaned string. -/
def parsePriceParts (priceField : Option String) : Option DecParts :=
  match priceField with
  | none => none
  | some s =>
    if s.data.isEmpty then none
    else
      let cleaned := cleanedPrice s
      if cleaned.contains '-' then
        match (hyphenSegments s).getLast? with
        | none => none
        | some last => pyFloatParts last
      else pyFloatParts cleaned

/-- parse_price from src/ipo_monitor.py: the parsed rational price, or none
where the Python function returns None. -/
def parse_price (priceField : Option String) : Option ℚ :=
  (parsePriceParts priceField).map DecParts.val

/-- Syntactic stage of the share-count conversion inside offer_amount_usd:
float(str(shares).replace(",", "").strip()). -/
def sharesParts (ipo : IpoRecord) : Option DecParts :=
  match ipo.numberOfShares with
  | none => none
  | some sh => pyFloatParts (pyStripList (removeAllChar ',' sh.toChars))

/-- The parsed share count of a record, or none where float() would raise. -/
def sharesValue (ipo : IpoRecord) : Option ℚ :=
  (sharesParts ipo).map DecParts.val

/-- offer_amount_usd from src/ipo_monitor.py lines 81-95: price times share
count; None when the price is unparseable, the share field is missing or
unparseable, or the share count is not positive. -/
def offer_amount_usd (ipo : IpoRecord) : Option ℚ :=
  match parse_price ipo.price, ipo.numberOfShares with
  | some price, some _ =>
    match sharesValue ipo with
    | none => none
    | some sv => if sv ≤ 0 then none else some (price * sv)
  | _, _ => none

/-- The uppercased exchange of a record: (ipo.get("exchange") or "").upper(). -/
def exchangeUpper (ipo : IpoRecord) : String :=
  pyUpper (ipo.exchange.getD "")

/-- Whether the uppercased exchange of a record lies in US_EXCHANGES. -/
def isUsExchange (ipo : IpoRecord) : Bool :=
  US_EXCHANGES.contains (exchangeUpper ipo)

/-- One iteration of the loop body of analyze_ipos (src/ipo_monitor.py
lines 106-121) acting on the (qualified, stats) accumulator. -/
def analyzeStep (acc : List IpoRecord × AnalysisStats) (ipo : IpoRecord) :
    List IpoRecord × AnalysisStats :=
  let qualified := acc.1
  let stats := acc.2
  let stats := { stats with total_ipos := stats.total_ipos + 1 }
  if isUsExchange ipo then
    let stats := { stats with us_ipos := stats.us_ipos + 1 }
    match offer_amount_usd ipo with
    | none => (qualified, { stats with missing_data := stats.missing_data + 1 })
    | some amt =>
      if (MIN_OFFER_AMOUNT_USD : ℚ) ≤ amt then
        (qualified ++ [{ ipo with offerAmountUsd := some amt }],
         { stats with qualified := stats.qualified + 1 })
      else (qualified, stats)
  else (qualified, stats)

/-- analyze_ipos from src/ipo_monitor.py lines 97-123: fold the loop body
over the input, starting from an empty qualified list and zeroed stats. -/
def analyze_ipos (ipos : List IpoRecord) : List IpoRecord × AnalysisStats :=
  ipos.foldl analyzeStep ([], ⟨0, 0, 0, 0⟩)

/-- Records that pass the qualification test of the analyzer loop: on a US
exchange, with a computed offer amount at or above the threshold. -/
def qualifiesB (ipo : IpoRecord) : Bool :=
  isUsExchange ipo &&
    (match offer_amount_usd ipo with
     | some amt => decide ((MIN_OFFER_AMOUNT_USD : ℚ) ≤ amt)
     | none => false)

/-- Records counted as missing data by the analyzer loop: on a US exchange
but with no computable offer amount. -/
def missingB (ipo : IpoRecord) : Bool :=
  isUsExchange ipo && (offer_amount_usd ipo).isNone

/-- The derived-field attachment performed on a qualifying record:
ipo["_offer_amount_usd"] = amt, every other field untouched. -/
def attachAmount (ipo : IpoRecord) : IpoRecord :=
  { ipo with offerAmountUsd := offer_amount_usd ipo }

/-! ## Report rendering and subject line of src/ipo_monitor.py -/

/-- Models the Python idiom (value or default) for an optional string
field: a missing or empty string falls back to the default. -/
def orDefault (v : Option String) (d : String) : String :=
  match v with
  | none => d
  | some s => if s.data.isEmpty then d else s

/-- Display of the numberOfShares field in a report line:
(ipo.get("numberOfShares") or "N/A"), where an empty string or the number
zero is falsy, and a number is rendered by str(). -/
def sharesDisplay (v : Option ShareField) : String :=
  match v with
  | none => "N/A"
  | some (.s str) => if str.data.isEmpty then "N/A" else str
  | some (.n i) => if i = 0 then "N/A" else Int.repr i

/-- Round a rational to the nearest integer, ties to even: the rounding of
the Python format spec "{x:,.0f}". -/
def roundHalfToEven (q : ℚ) : Int :=
  let f := ⌊q⌋
  let r := q - (f : ℚ)
  if r < 1 / 2 then f
  else if 1 / 2 < r then f + 1
  else if f % 2 = 0 then f else f + 1

/-- Models the Python format spec "{x:,.0f}": round to an integer, render
with thousands separators. -/
def fmtComma0f (q : ℚ) : String :=
  let i := roundHalfToEven q
  if i < 0 then "-" ++ pyThousands i.natAbs else pyThousands i.natAbs

/-- The first sentence of the empty-report body of build_email. -/
def noIpoLine : String :=
  "No U.S. same-day IPOs with offer amount above USD " ++
    pyThousands MIN_OFFER_AMOUNT_USD ++ "."

/-- The summary_lines list of build_email (src/ipo_monitor.py lines
144-151), trailing empty line included. -/
def summaryLines (dateIso : String) (stats : AnalysisStats) : List String :=
  [ "Date (Dubai): " ++ dateIso,
    "Total IPOs returned: " ++ Nat.repr stats.total_ipos,
    "U.S. exchanges (NASDAQ/NYSE/AMEX): " ++ Nat.repr stats.us_ipos,
    "Missing price/shares: " ++ Nat.repr stats.missing_data,
    "Offer >= USD " ++ pyThousands MIN_OFFER_AMOUNT_USD ++ ": " ++
      Nat.repr stats.qualified,
    "" ]

/-- The formatted offer-amount column of a report line. -/
def offerDisplay (ipo : IpoRecord) : String :=
  match ipo.offerAmountUsd with
  | some amt => "USD " ++ fmtComma0f amt
  | none => "N/A"

/-- One per-record line of the plain-text report body. -/
def recordLine (ipo : IpoRecord) : String :=
  "- " ++ orDefault ipo.symbol "UNKNOWN" ++ " | " ++ orDefault ipo.name "Unknown" ++
    " | " ++ orDefault ipo.exchange "Unknown" ++ " | Price: " ++
    orDefault ipo.price "N/A" ++ " | Shares: " ++ sharesDisplay ipo.numberOfShares ++
    " | Offer: " ++ offerDisplay ipo

/-- One table row of the HTML report body. -/
def htmlRow (ipo : IpoRecord) : String :=
  "<tr>" ++ "<td>" ++ orDefault ipo.symbol "UNKNOWN" ++ "</td>" ++
    "<td>" ++ orDefault ipo.name "Unknown" ++ "</td>" ++
    "<td>" ++ orDefault ipo.exchange "Unknown" ++ "</td>" ++
    "<td>" ++ orDefault ipo.price "N/A" ++ "</td>" ++
    "<td>" ++ sharesDisplay ipo.numberOfShares ++ "</td>" ++
    "<td>" ++ offerDisplay ipo ++ "</td>" ++ "</tr>"

/-- The summary lines wrapped as HTML list items, empty lines dropped:
the list comprehension with an if filter in build_email. -/
def summaryItems (dateIso : String) (stats : AnalysisStats) : List String :=
  ((summaryLines dateIso stats).filter (fun l => !l.data.isEmpty)).map
    (fun l => "<li>" ++ l ++ "</li>")

/-- build_email from src/ipo_monitor.py lines 143-233: the plain-text and
HTML report bodies for a rendered record list, a date string and the stats. -/
def build_email (ipos : List IpoRecord) (dateIso : String) (stats : AnalysisStats) :
    String × String :=
  if ipos.isEmpty then
    (joinLines ([noIpoLine, ""] ++ summaryLines dateIso stats),
     joinLines (["<p><strong>" ++ noIpoLine ++ "</strong></p>", "<ul>"] ++
       summaryItems dateIso stats ++ ["</ul>"]))
  else
    (joinLines (["U.S. Same-Day IPOs on " ++ dateIso ++ " (> USD 200M)", ""] ++
       summaryLines dateIso stats ++ ipos.map recordLine),
     joinLines (["<h3>U.S. Same-Day IPOs on " ++ dateIso ++ "</h3>",
       "<p><strong>Offer amounts shown below (some may be below USD " ++
         pyThousands MIN_OFFER_AMOUNT_USD ++ ").</strong></p>",
       "<ul>"] ++ summaryItems dateIso stats ++
       ["</ul>",
        "<table border=\"1\" cellpadding=\"6\" cellspacing=\"0\">",
        "<thead><tr>" ++ "<th>Symbol</th><th>Company</th><th>Exchange</th>" ++
          "<th>Price</th><th>Shares</th><th>Offer Amount</th>" ++ "</tr></thead>",
        "<tbody>"] ++ ipos.map htmlRow ++ ["</tbody></table>"]))

/-- The subject line computed in run() (src/ipo_monitor.py line 268) from
the date and the qualified list the analyzer returns for the fetched records. -/
def runSubject (dateIso : String) (ipos : List IpoRecord) : String :=
  "IPO Monitor " ++ dateIso ++ " - " ++ Nat.repr (analyze_ipos ipos).1.length ++
    " qualifying IPO(s)"

/-! ## Scheduler loop of src/run_scheduler.py -/

/-- TARGET_HOUR from src/run_scheduler.py. -/
def TARGET_HOUR : Nat := 9

/-- TARGET_MINUTE from src/run_scheduler.py. -/
def TARGET_MINUTE : Nat := 0

/-- A Dubai wall-clock observation of the scheduler loop: the calendar
date as an abstract day index, plus hour and minute. -/
structure DubaiTime where
  day : Nat
  hour : Nat
  minute : Nat
deriving DecidableEq, Repr

/-- One iteration of the scheduler while-loop (src/run_scheduler.py lines
36-42) observing time t with dedupe marker lastRun: returns the new marker
and whether the job was invoked.  A completed job sets the marker to the
current date. -/
def schedStep (lastRun : Option Nat) (t : DubaiTime) : Option Nat × Bool :=
  if t.hour = TARGET_HOUR ∧ t.minute = TARGET_MINUTE then
    if lastRun ≠ some t.day then (some t.day, true) else (lastRun, false)
  else (lastRun, false)

/-- The scheduler loop run over a sequence of observed times, recording for
each observation whether the job was invoked. -/
def schedTrace : Option Nat → List DubaiTime → List (DubaiTime × Bool)
  | _, [] => []
  | lastRun, t :: rest =>
    let s := schedStep lastRun t
    (t, s.2) :: schedTrace s.1 rest

/-- Number of job invocations a trace performs on a given calendar day. -/
def runsOnDay (d : Nat) (tr : List (DubaiTime × Bool)) : Nat :=
  tr.countP (fun p => p.2 && (p.1.day == d))

/-! ## Reading of the hyphen rule of the spec, for comparison with parse_price -/

/-- Modelled from the spec: take the last non-empty numeric segment of the
hyphen-split cleaned price string, read literally — the last segment that
parses as a float, rather than the last segment whenever it parses. -/
def lastNumericSegment (s : String) : Option (List Char) :=
  (hyphenSegments s).reverse.find? (fun seg => (pyFloatParts seg).isSome)

/-- Modelled from the spec: the price the hyphen rule of the spec denotes
under the literal reading recorded in lastNumericSegment. -/
def parsePriceSpec (s : String) : Option ℚ :=
  (lastNumericSegment s).bind (fun seg => (pyFloatParts seg).map DecParts.val)

/-! ## Concrete example records used in witnesses -/

/-- Example record from the offer-amount test of the spec: a range price and a
comma-grouped share-count string. -/
def recTen : IpoRecord :=
  { price := some "10-12", numberOfShares := some (.s "1,000,000") }

/-- Example record whose offer amount is exactly the threshold: price 200,
1,000,000 shares, lowercase exchange code normalized to NYSE. -/
def recExact : IpoRecord :=
  { symbol := some "WXYZ", name := some "Widget Inc", exchange := some "nyse",
    price := some "200", numberOfShares := some (.n 1000000) }

/-- Example qualifying record well above the threshold. -/
def recBig : IpoRecord :=
  { symbol := some "ABCD", name := some "Acme Corp", exchange := some "NASDAQ",
    price := some "20-22", numberOfShares := some (.s "100,000,000") }

/-! ## Helper lemmas -/


theorem parse_price_recTen : parse_price recTen.price = some 12 := by
  have h : parsePriceParts recTen.price = some ⟨false, 12, 0, 0, 0⟩ := by decide
  rw [parse_price, h]
  norm_num [DecParts.val]

theorem sharesValue_recTen : sharesValue recTen = some 1000000 := by
  have h : sharesParts recTen = some ⟨false, 1000000, 0, 0, 0⟩ := by decide
  rw [sharesValue, h]
  norm_num [DecParts.val]

theorem offer_recTen : offer_amount_usd recTen = some 12000000 := by
  have hns : recTen.numberOfShares = some (.s "1,000,000") := rfl
  simp only [offer_amount_usd, parse_price_recTen, sharesValue_recTen, hns]
  norm_num

theorem parse_price_recExact : parse_price recExact.price = some 200 := by
  have h : parsePriceParts recExact.price = some ⟨false, 200, 0, 0, 0⟩ := by decide
  rw [parse_price, h]
  norm_num [DecParts.val]

theorem sharesValue_recExact : sharesValue recExact = some 1000000 := by
  have h : sharesParts recExact = some ⟨false, 1000000, 0, 0, 0⟩ := by decide
  rw [sharesValue, h]
  norm_num [DecParts.val]

theorem offer_recExact : offer_amount_usd recExact = some 200000000 := by
  have hns : recExact.numberOfShares = some (.n 1000000) := rfl
  simp only [offer_amount_usd, parse_price_recExact, sharesValue_recExact, hns]
  norm_num

theorem qualifiesB_recExact : qualifiesB recExact = true := by
  simp only [qualifiesB, offer_recExact, Bool.and_eq_true]
  refine ⟨by decide, ?_⟩
  rw [decide_eq_true_eq]
  norm_num [MIN_OFFER_AMOUNT_USD]

theorem analyze_foldl (l : List IpoRecord) (q : List IpoRecord) (s : AnalysisStats) :
    l.foldl analyzeStep (q, s) =
      (q ++ (l.filter qualifiesB).map attachAmount,
       ⟨s.total_ipos + l.length, s.us_ipos + l.countP isUsExchange,
        s.missing_data + l.countP missingB, s.qualified + l.countP qualifiesB⟩) := by
  induction l generalizing q s with
  | nil => simp
  | cons ipo rest ih =>
    rw [List.foldl_cons]
    by_cases hus : isUsExchange ipo
    · cases ho : offer_amount_usd ipo with
      | none =>
        have hstep : analyzeStep (q, s) ipo =
            (q, ⟨s.total_ipos + 1, s.us_ipos + 1, s.missing_data + 1, s.qualified⟩) := by
          simp [analyzeStep, hus, ho]
        have hq : qualifiesB ipo = false := by simp [qualifiesB, hus, ho]
        have hm : missingB ipo = true := by simp [missingB, hus, ho]
        rw [hstep, ih]
        simp only [List.filter_cons, List.countP_cons, List.length_cons, hq, hm, hus,
          if_neg, if_pos, Bool.false_eq_true, ite_false, ite_true, Prod.mk.injEq,
          AnalysisStats.mk.injEq]
        refine ⟨trivial, by omega, by omega, by omega, by omega⟩
      | some amt =>
        by_cases hc : (MIN_OFFER_AMOUNT_USD : ℚ) ≤ amt
        · have hstep : analyzeStep (q, s) ipo =
              (q ++ [{ ipo with offerAmountUsd := some amt }],
               ⟨s.total_ipos + 1, s.us_ipos + 1, s.missing_data, s.qualified + 1⟩) := by
            simp [analyzeStep, hus, ho, hc]
          have hq : qualifiesB ipo = true := by simp [qualifiesB, hus, ho, hc]
          have hm : missingB ipo = false := by simp [missingB, hus, ho]
          have hann : attachAmount ipo = { ipo with offerAmountUsd := some amt } := by
            simp [attachAmount, ho]
          rw [hstep, ih]
          simp only [List.filter_cons, List.countP_cons, List.length_cons, hq, hm, hus,
            Bool.false_eq_true, ite_false, ite_true, Prod.mk.injEq, AnalysisStats.mk.injEq,
            List.map_cons, hann, List.append_assoc, List.singleton_append]
          refine ⟨trivial, by omega, by omega, by omega, by omega⟩
        · have hstep : analyzeStep (q, s) ipo =
              (q, ⟨s.total_ipos + 1, s.us_ipos + 1, s.missing_data, s.qualified⟩) := by
            simp [analyzeStep, hus, ho, hc]
          have hq : qualifiesB ipo = false := by simp [qualifiesB, hus, ho, hc]
          have hm : missingB ipo = false := by simp [missingB, hus, ho]
          rw [hstep, ih]
          simp only [List.filter_cons, List.countP_cons, List.length_cons, hq, hm, hus,
            Bool.false_eq_true, ite_false, ite_true, Prod.mk.injEq, AnalysisStats.mk.injEq]
          refine ⟨trivial, by omega, by omega, by omega, by omega⟩
    · have hstep : analyzeStep (q, s) ipo =
          (q, ⟨s.total_ipos + 1, s.us_ipos, s.missing_data, s.qualified⟩) := by
        simp [analyzeStep, hus]
      have hq : qualifiesB ipo = false := by simp [qualifiesB, hus]
      have hm : missingB ipo = false := by simp [missingB, hus]
      rw [hstep, ih]
      simp only [List.filter_cons, List.countP_cons, List.length_cons, hq, hm, hus,
        Bool.false_eq_true, ite_false, ite_true, Prod.mk.injEq, AnalysisStats.mk.injEq]
      refine ⟨trivial, by omega, by omega, by omega, by omega⟩

theorem analyze_ipos_eq (ipos : List IpoRecord) :
    analyze_ipos ipos =
      ((ipos.filter qualifiesB).map attachAmount,
       ⟨ipos.length, ipos.countP isUsExchange, ipos.countP missingB,
        ipos.countP qualifiesB⟩) := by
  rw [analyze_ipos, analyze_foldl]
  simp

theorem splitOnCharPred_ne_nil (p : Char → Bool) (cs : List Char) :
    splitOnCharPred p cs ≠ [] := by
  induction cs with
  | nil => simp [splitOnCharPred]
  | cons c rest ih =>
    rw [splitOnCharPred]
    by_cases hc : p c
    · simp [hc]
    · simp only [hc, Bool.false_eq_true, ite_false]
      cases hrec : splitOnCharPred p rest with
      | nil => exact absurd hrec ih
      | cons h t => simp

theorem mem_splitOnCharPred (p : Char → Bool) (cs : List Char) (part : List Char)
    (x : Char) (hp : part ∈ splitOnCharPred p cs) (hx : x ∈ part) :
    x ∈ cs ∧ p x = false := by
  induction cs generalizing part with
  | nil =>
    simp only [splitOnCharPred, List.mem_singleton] at hp
    subst hp
    exact absurd hx (List.not_mem_nil x)
  | cons c rest ih =>
    rw [splitOnCharPred] at hp
    by_cases hc : p c
    · simp only [hc, ite_true, List.mem_cons] at hp
      rcases hp with rfl | hp
      · exact absurd hx (List.not_mem_nil x)
      · have h2 := ih part hp hx
        exact ⟨List.mem_cons_of_mem c h2.1, h2.2⟩
    · simp only [hc, Bool.false_eq_true, ite_false] at hp
      cases hrec : splitOnCharPred p rest with
      | nil => exact absurd hrec (splitOnCharPred_ne_nil p rest)
      | cons h t =>
        rw [hrec] at hp
        rcases List.mem_cons.mp hp with rfl | hmem
        · rcases List.mem_cons.mp hx with rfl | hxh
          · exact ⟨List.mem_cons_self x rest, by simpa using hc⟩
          · have := ih h (by rw [hrec]; exact List.mem_cons_self h t) hxh
            exact ⟨List.mem_cons_of_mem c this.1, this.2⟩
        · have := ih part (by rw [hrec]; exact List.mem_cons_of_mem h hmem) hx
          exact ⟨List.mem_cons_of_mem c this.1, this.2⟩

theorem mem_pyStripList (cs : List Char) (x : Char) (hx : x ∈ pyStripList cs) :
    x ∈ cs := by
  rw [pyStripList] at hx
  rw [List.mem_reverse] at hx
  have h1 := (List.dropWhile_sublist Char.isWhitespace).subset hx
  rw [List.mem_reverse] at h1
  exact (List.dropWhile_sublist Char.isWhitespace).subset h1

theorem parseSignedMantissa_no_hyphen (m : List Char) (x : Bool × Nat × Nat × Nat)
    (hm : '-' ∉ m) (hx : parseSignedMantissa m = some x) : x.1 = false := by
  cases m with
  | nil =>
    simp only [parseSignedMantissa, Option.map_eq_some'] at hx
    obtain ⟨y, _, hy⟩ := hx
    simp [← hy]
  | cons c rest =>
    have hcm : ¬ c = '-' := fun h => hm (h ▸ List.mem_cons_self c rest)
    by_cases hcp : c = '+'
    · simp only [parseSignedMantissa, if_pos hcp, Option.map_eq_some'] at hx
      obtain ⟨y, _, hy⟩ := hx
      simp [← hy]
    · simp only [parseSignedMantissa, if_neg hcp, if_neg hcm, Option.map_eq_some'] at hx
      obtain ⟨y, _, hy⟩ := hx
      simp [← hy]

theorem parseExpDigits_no_hyphen (e : List Char) (ex : Int)
    (he : '-' ∉ e) (hx : parseExpDigits e = some ex) : 0 ≤ ex := by
  cases e with
  | nil => simp [parseExpDigits] at hx
  | cons c rest =>
    have hcm : ¬ c = '-' := fun h => he (h ▸ List.mem_cons_self c rest)
    by_cases hcp : c = '+'
    · simp only [parseExpDigits, if_pos hcp] at hx
      split at hx
      · rw [Option.some.injEq] at hx
        subst hx
        exact Int.natCast_nonneg _
      · exact absurd hx (by simp)
    · simp only [parseExpDigits, if_neg hcp, if_neg hcm] at hx
      split at hx
      · rw [Option.some.injEq] at hx
        subst hx
        exact Int.natCast_nonneg _
      · exact absurd hx (by simp)

theorem pyFloatParts_no_hyphen (cs : List Char) (d : DecParts)
    (hcs : '-' ∉ cs) (hd : pyFloatParts cs = some d) :
    d.negSign = false ∧ 0 ≤ d.ex := by
  have hsub : ∀ part ∈ splitOnCharPred isExpChar (pyStripList cs), '-' ∉ part := by
    intro part hpart hmem
    exact hcs (mem_pyStripList cs '-' (mem_splitOnCharPred _ _ part '-' hpart hmem).1)
  cases hsplit : splitOnCharPred isExpChar (pyStripList cs) with
  | nil => exact absurd hsplit (splitOnCharPred_ne_nil _ _)
  | cons m t =>
    have hm : '-' ∉ m := hsub m (by rw [hsplit]; exact List.mem_cons_self m t)
    cases t with
    | nil =>
      simp only [pyFloatParts, hsplit, Option.map_eq_some'] at hd
      obtain ⟨x, hx, hval⟩ := hd
      have hs := parseSignedMantissa_no_hyphen m x hm hx
      subst hval
      exact ⟨hs, by simp⟩
    | cons e t2 =>
      have he : '-' ∉ e :=
        hsub e (by rw [hsplit]; exact List.mem_cons_of_mem m (List.mem_cons_self e t2))
      cases t2 with
      | nil =>
        simp only [pyFloatParts, hsplit] at hd
        cases hsm : parseSignedMantissa m with
        | none => rw [hsm] at hd; exact absurd hd (by simp)
        | some x =>
          cases hse : parseExpDigits e with
          | none => rw [hsm, hse] at hd; exact absurd hd (by simp)
          | some ex =>
            rw [hsm, hse] at hd
            simp only [Option.some.injEq] at hd
            subst hd
            exact ⟨parseSignedMantissa_no_hyphen m x hm hsm,
              parseExpDigits_no_hyphen e ex he hse⟩
      | cons f t3 =>
        simp only [pyFloatParts, hsplit] at hd
        exact absurd hd (by simp)

theorem DecParts.val_nonneg (d : DecParts) (hs : d.negSign = false) (he : 0 ≤ d.ex) :
    0 ≤ d.val := by
  rw [DecParts.val, hs]
  simp only [Bool.false_eq_true, ite_false, if_pos he]
  positivity

theorem not_hyphen_mem_hyphenSegments (s : String) (seg : List Char)
    (hseg : seg ∈ hyphenSegments s) : '-' ∉ seg := by
  intro hmem
  rw [hyphenSegments] at hseg
  have h1 := (List.mem_filter.mp hseg).1
  obtain ⟨part, hpart, rfl⟩ := List.mem_map.mp h1
  have h2 := mem_pyStripList part '-' hmem
  have h3 := (mem_splitOnCharPred _ _ part '-' hpart h2).2
  simp at h3

theorem parsePriceParts_sign (pf : Option String) (d : DecParts)
    (h : parsePriceParts pf = some d) : d.negSign = false ∧ 0 ≤ d.ex := by
  cases pf with
  | none => simp [parsePriceParts] at h
  | some str =>
    by_cases hemp : str.data.isEmpty
    · simp [parsePriceParts, hemp] at h
    · by_cases hhy : (cleanedPrice str).contains '-'
      · simp only [parsePriceParts, hemp, Bool.false_eq_true, ite_false, hhy,
          ite_true] at h
        cases hl : (hyphenSegments str).getLast? with
        | none => rw [hl] at h; exact absurd h (by simp)
        | some seg =>
          rw [hl] at h
          exact pyFloatParts_no_hyphen seg d
            (not_hyphen_mem_hyphenSegments str seg (List.mem_of_getLast?_eq_some hl)) h
      · simp only [parsePriceParts, hemp, Bool.false_eq_true, ite_false, hhy] at h
        refine pyFloatParts_no_hyphen _ d ?_ h
        intro hmem
        exact hhy (List.elem_iff.mpr hmem)

theorem schedStep_day_eq (t : DubaiTime) (d : Nat)
    (hday : t.day = d) : schedStep (some d) t = (some d, false) := by
  rw [schedStep]
  split
  · simp [hday]
  · rfl

theorem schedStep_invoked (lastRun : Option Nat) (t : DubaiTime)
    (h : (schedStep lastRun t).2 = true) : (schedStep lastRun t).1 = some t.day := by
  rw [schedStep] at h ⊢
  split at h
  · split at h
    · simp_all [schedStep]
    · simp at h
  · simp at h

theorem runsOnDay_zero_of_ne (d : Nat) (lastRun : Option Nat) (ts : List DubaiTime)
    (h : ∀ t ∈ ts, t.day ≠ d) : runsOnDay d (schedTrace lastRun ts) = 0 := by
  induction ts generalizing lastRun with
  | nil => rfl
  | cons t rest ih =>
    simp only [schedTrace, runsOnDay, List.countP_cons]
    have ht : t.day ≠ d := h t (List.mem_cons_self t rest)
    have hbe : (t.day == d) = false := by simp [ht]
    simp only [hbe, Bool.and_false, if_false]
    have := ih ((schedStep lastRun t).1) (fun u hu => h u (List.mem_cons_of_mem t hu))
    simpa [runsOnDay] using this

theorem runsOnDay_zero_marker (d : Nat) (ts : List DubaiTime)
    (hmono : List.Pairwise (fun a b => a.day ≤ b.day) ts)
    (hge : ∀ t ∈ ts, d ≤ t.day) :
    runsOnDay d (schedTrace (some d) ts) = 0 := by
  induction ts with
  | nil => rfl
  | cons t rest ih =>
    rcases List.pairwise_cons.mp hmono with ⟨hhead, hrest⟩
    rcases eq_or_lt_of_le (hge t (List.mem_cons_self t rest)) with heq | hlt
    · have hstep := schedStep_day_eq t d heq.symm
      simp only [schedTrace, runsOnDay, List.countP_cons, hstep, Bool.false_and,
        if_false]
      have := ih hrest (fun u hu => hge u (List.mem_cons_of_mem t hu))
      simpa [runsOnDay] using this
    · simp only [schedTrace, runsOnDay, List.countP_cons]
      have hbe : (t.day == d) = false := by
        simp only [beq_eq_false_iff_ne, ne_eq]
        omega
      simp only [hbe, Bool.and_false, if_false]
      have hne : ∀ u ∈ rest, u.day ≠ d := by
        intro u hu
        have := hhead u hu
        omega
      have := runsOnDay_zero_of_ne d ((schedStep (some d) t).1) rest hne
      simpa [runsOnDay] using this

theorem runsOnDay_le_one (d : Nat) (lastRun : Option Nat) (ts : List DubaiTime)
    (hmono : List.Pairwise (fun a b => a.day ≤ b.day) ts) :
    runsOnDay d (schedTrace lastRun ts) ≤ 1 := by
  induction ts generalizing lastRun with
  | nil => simp [runsOnDay, schedTrace]
  | cons t rest ih =>
    rcases List.pairwise_cons.mp hmono with ⟨hhead, hrest⟩
    simp only [schedTrace, runsOnDay, List.countP_cons]
    by_cases hc : ((schedStep lastRun t).2 && (t.day == d)) = true
    · rw [Bool.and_eq_true] at hc
      have hb : (schedStep lastRun t).2 = true := hc.1
      have hday : t.day = d := by simpa using hc.2
      have hmark : (schedStep lastRun t).1 = some d := by
        rw [schedStep_invoked lastRun t hb, hday]
      have hz : runsOnDay d (schedTrace ((schedStep lastRun t).1) rest) = 0 := by
        rw [hmark]
        exact runsOnDay_zero_marker d rest hrest
          (fun u hu => hday ▸ hhead u hu)
      have hcc : ((schedStep lastRun t).2 && (t.day == d)) = true := by
        rw [Bool.and_eq_true]
        exact hc
      rw [if_pos hcc]
      simp only [runsOnDay] at hz
      omega
    · simp only [hc, if_false]
      have := ih ((schedStep lastRun t).1) hrest
      simpa [runsOnDay] using this

theorem strContains_append_right (pat s t : String) (h : strContains pat s) :
    strContains pat (s ++ t) := by
  obtain ⟨pre, suf, hx⟩ := h
  exact ⟨pre, suf ++ t.data, by simp [hx]⟩

theorem strContains_append_left (pat s t : String) (h : strContains pat t) :
    strContains pat (s ++ t) := by
  obtain ⟨pre, suf, hx⟩ := h
  exact ⟨s.data ++ pre, suf, by simp [hx]⟩

theorem parse_price_recBig : parse_price recBig.price = some 22 := by
  have h : parsePriceParts recBig.price = some ⟨false, 22, 0, 0, 0⟩ := by decide
  rw [parse_price, h]
  norm_num [DecParts.val]

theorem sharesValue_recBig : sharesValue recBig = some 100000000 := by
  have h : sharesParts recBig = some ⟨false, 100000000, 0, 0, 0⟩ := by decide
  rw [sharesValue, h]
  norm_num [DecParts.val]

theorem offer_recBig : offer_amount_usd recBig = some 2200000000 := by
  have hns : recBig.numberOfShares = some (.s "100,000,000") := rfl
  simp only [offer_amount_usd, parse_price_recBig, sharesValue_recBig, hns]
  norm_num

theorem qualifiesB_recBig : qualifiesB recBig = true := by
  simp only [qualifiesB, offer_recBig, Bool.and_eq_true]
  refine ⟨by decide, ?_⟩
  rw [decide_eq_true_eq]
  norm_num [MIN_OFFER_AMOUNT_USD]

theorem parse_price_range_example : parse_price (some "20-22") = some 22 := by
  have h : parsePriceParts (some "20-22") = some ⟨false, 22, 0, 0, 0⟩ := by decide
  rw [parse_price, h]
  norm_num [DecParts.val]

theorem mem_dropWhile_of_not (p : Char → Bool) (cs : List Char) (c : Char)
    (hc : c ∈ cs) (hp : p c = false) : c ∈ cs.dropWhile p := by
  induction cs with
  | nil => exact absurd hc (List.not_mem_nil c)
  | cons x rest ih =>
    by_cases hx : p x
    · rw [List.dropWhile_cons_of_pos hx]
      rcases List.mem_cons.mp hc with rfl | hmem
      · rw [hx] at hp; exact absurd hp (by simp)
      · exact ih hmem
    · rw [List.dropWhile_cons_of_neg hx]
      exact hc

theorem mem_pyStripList_of_not_ws (cs : List Char) (c : Char)
    (hc : c ∈ cs) (hw : c.isWhitespace = false) : c ∈ pyStripList cs := by
  rw [pyStripList, List.mem_reverse]
  apply mem_dropWhile_of_not _ _ _ _ hw
  rw [List.mem_reverse]
  exact mem_dropWhile_of_not _ _ _ hc hw

theorem cleanedPrice_contains_hyphen (s : String) (h : '-' ∈ s.data) :
    (cleanedPrice s).contains '-' = true := by
  apply List.elem_iff.mpr
  rw [cleanedPrice, removeAllChar, removeAllChar]
  rw [List.mem_filter]
  refine ⟨?_, by decide⟩
  rw [List.mem_filter]
  refine ⟨?_, by decide⟩
  exact mem_pyStripList_of_not_ws s.data '-' h (by decide)

/-! ## Claim theorems -/

/-- Claim C1, counterexample: for the hyphenated price string "20-abc" a
numeric segment remains (the segment "20", which the rule of the spec would
return as 20.0), yet parse_price returns none, because the code parses the
last non-empty segment whether or not it is numeric. -/
theorem c1_counterexample :
    parse_price (some "20-abc") = none ∧
    parsePriceSpec "20-abc" = some 20 ∧
    lastNumericSegment "20-abc" = some ['2', '0'] := by
  refine ⟨?_, ?_, by decide⟩
  · have h : parsePriceParts (some "20-abc") = none := by decide
    rw [parse_price, h]; rfl
  · have h : lastNumericSegment "20-abc" = some ['2', '0'] := by decide
    have h2 : pyFloatParts ['2', '0'] = some ⟨false, 20, 0, 0, 0⟩ := by decide
    rw [parsePriceSpec, h, Option.some_bind, h2]
    norm_num [DecParts.val]

/-- Claim C1 as amended: for every price string containing a hyphen,
parse_price cleans the string, discards empty segments, and float-parses
the last non-empty segment (so parse_price("20-22") = 22), returning none
exactly when no non-empty segment remains or the last non-empty segment is
not numeric. -/
theorem c1_hyphen_last_segment (s : String) (h : '-' ∈ s.data) :
    parse_price (some s) =
      ((hyphenSegments s).getLast?).bind (fun seg => pyFloat seg) ∧
    (parse_price (some s) = none ↔
      (hyphenSegments s).getLast? = none ∨
      ∃ seg, (hyphenSegments s).getLast? = some seg ∧ pyFloat seg = none) ∧
    parse_price (some "20-22") = some 22 := by
  have hne : s.data.isEmpty = false := by
    cases hd : s.data with
    | nil => rw [hd] at h; exact absurd h (List.not_mem_nil _)
    | cons a t => rfl
  have hcc := cleanedPrice_contains_hyphen s h
  have hmain : parse_price (some s) =
      ((hyphenSegments s).getLast?).bind (fun seg => pyFloat seg) := by
    simp only [parse_price, parsePriceParts, hne, Bool.false_eq_true, ite_false,
      hcc, ite_true]
    cases hl : (hyphenSegments s).getLast? with
    | none => rfl
    | some seg => rfl
  refine ⟨hmain, ?_, parse_price_range_example⟩
  rw [hmain]
  cases hl : (hyphenSegments s).getLast? with
  | none => simp
  | some seg =>
    simp only [Option.some_bind]
    constructor
    · intro hpf
      exact Or.inr ⟨seg, rfl, hpf⟩
    · rintro (hc | ⟨seg2, hseg2, hpf⟩)
      · exact absurd hc (by simp)
      · rw [Option.some.injEq] at hseg2
        subst hseg2
        exact hpf

/-- Witness for the amended claim C1 at the concrete input "20-22". -/
theorem c1_hyphen_last_segment_witness :
    '-' ∈ "20-22".data ∧
    parse_price (some "20-22") =
      ((hyphenSegments "20-22").getLast?).bind (fun seg => pyFloat seg) :=
  ⟨by decide, (c1_hyphen_last_segment "20-22" (by decide)).1⟩

/-- Claim C2: for every input sequence, the stats of analyze_ipos satisfy
qualified ≤ us_ipos ≤ total_ipos, missing_data ≤ us_ipos, and total_ipos
equals the input length (all counters are naturals, hence non-negative). -/
theorem c2_stats_invariants (ipos : List IpoRecord) :
    (analyze_ipos ipos).2.qualified ≤ (analyze_ipos ipos).2.us_ipos ∧
    (analyze_ipos ipos).2.us_ipos ≤ (analyze_ipos ipos).2.total_ipos ∧
    (analyze_ipos ipos).2.missing_data ≤ (analyze_ipos ipos).2.us_ipos ∧
    (analyze_ipos ipos).2.total_ipos = ipos.length := by
  rw [analyze_ipos_eq]
  refine ⟨?_, ?_, ?_, rfl⟩
  · apply List.countP_mono_left
    intro x _ hx
    rw [qualifiesB, Bool.and_eq_true] at hx
    exact hx.1
  · exact List.countP_le_length _
  · apply List.countP_mono_left
    intro x _ hx
    rw [missingB, Bool.and_eq_true] at hx
    exact hx.1

/-- Claim C3: every input record on a US exchange whose computed offer
amount is exactly 200,000,000 USD is appended (with the amount attached) to
the qualified sequence and counted in the qualified stat: the threshold is
an inclusive lower bound. -/
theorem c3_threshold_inclusive (ipos : List IpoRecord) (r : IpoRecord)
    (hmem : r ∈ ipos) (hex : isUsExchange r = true)
    (hamt : offer_amount_usd r = some ((200000000 : ℚ))) :
    { r with offerAmountUsd := some ((200000000 : ℚ)) } ∈ (analyze_ipos ipos).1 ∧
    1 ≤ (analyze_ipos ipos).2.qualified := by
  have hq : qualifiesB r = true := by
    simp only [qualifiesB, hex, hamt, Bool.true_and]
    rw [decide_eq_true_eq]
    norm_num [MIN_OFFER_AMOUNT_USD]
  rw [analyze_ipos_eq]
  constructor
  · apply List.mem_map.mpr
    refine ⟨r, List.mem_filter.mpr ⟨hmem, hq⟩, ?_⟩
    rw [attachAmount, hamt]
  · exact List.countP_pos_iff.mpr ⟨r, hmem, hq⟩

/-- Witness for claim C3: a NYSE record priced 200 with 1,000,000 shares
has offer amount exactly 200,000,000 and lands in the qualified output. -/
theorem c3_threshold_inclusive_witness :
    { recExact with offerAmountUsd := some ((200000000 : ℚ)) } ∈
      (analyze_ipos [recExact]).1 ∧
    1 ≤ (analyze_ipos [recExact]).2.qualified :=
  c3_threshold_inclusive [recExact] recExact (List.mem_singleton.mpr rfl)
    (by decide) offer_recExact

/-- Positivity of the witness share count, used to discharge a hypothesis. -/
theorem millionPos : (0 : ℚ) < 1000000 := by norm_num

/-- Claim C4: offer_amount_usd returns parsed price times parsed share
count (shares parsed after comma removal and stripping), is none exactly
when the price is unparseable or the share count is missing, unparseable or
non-positive, and in particular price "10-12" with shares "1,000,000"
yields 12,000,000. -/
theorem c4_offer_amount (r : IpoRecord) (p v : ℚ)
    (hp : parse_price r.price = some p) (hv : sharesValue r = some v)
    (hpos : 0 < v) :
    offer_amount_usd r = some (p * v) ∧
    (∀ t : IpoRecord, offer_amount_usd t = none ↔
      parse_price t.price = none ∨ t.numberOfShares = none ∨ sharesValue t = none ∨
      ∃ w, sharesValue t = some w ∧ w ≤ 0) ∧
    offer_amount_usd recTen = some 12000000 := by
  refine ⟨?_, ?_, offer_recTen⟩
  · cases hns : r.numberOfShares with
    | none => rw [sharesValue, sharesParts, hns] at hv; exact absurd hv (by simp)
    | some sh =>
      simp only [offer_amount_usd, hp, hns, hv]
      rw [if_neg (not_le.mpr hpos)]
  · intro t
    cases hp2 : parse_price t.price with
    | none =>
      cases hns2 : t.numberOfShares with
      | none => simp [offer_amount_usd, hp2, hns2]
      | some sh2 => simp [offer_amount_usd, hp2, hns2]
    | some p2 =>
      cases hns2 : t.numberOfShares with
      | none => simp [offer_amount_usd, hp2, hns2]
      | some sh2 =>
        cases hsv : sharesValue t with
        | none => simp [offer_amount_usd, hp2, hns2, hsv]
        | some w =>
          by_cases hw : w ≤ 0
          · simp only [offer_amount_usd, hp2, hns2, hsv, if_pos hw]
            simp [hp2, hsv, hw]
          · simp only [offer_amount_usd, hp2, hns2, hsv, if_neg hw]
            simp [hp2, hns2, hsv, hw]

/-- Witness for claim C4 at the example record of the spec. -/
theorem c4_offer_amount_witness :
    parse_price recTen.price = some 12 ∧ sharesValue recTen = some 1000000 ∧
    offer_amount_usd recTen = some (12 * 1000000) :=
  ⟨parse_price_recTen, sharesValue_recTen,
    (c4_offer_amount recTen 12 1000000 parse_price_recTen sharesValue_recTen
      millionPos).1⟩

/-- Claim C5, counterexample: parse_price("0") parses to 0.0, which is not
positive, so a non-none output of the parser need not be positive. -/
theorem c5_counterexample :
    parse_price (some "0") = some 0 ∧ ¬ (0 : ℚ) < 0 := by
  constructor
  · have h : parsePriceParts (some "0") = some ⟨false, 0, 0, 0, 0⟩ := by decide
    rw [parse_price, h]
    norm_num [DecParts.val]
  · exact lt_irrefl 0

/-- Claim C5 as amended: whenever parse_price returns a value rather than
none, that value is non-negative (the cleaning and hyphen-splitting steps
strip any minus sign before the float conversion, but zero is attainable). -/
theorem c5_parse_price_nonneg (pf : Option String) (q : ℚ)
    (h : parse_price pf = some q) : 0 ≤ q := by
  rw [parse_price, Option.map_eq_some'] at h
  obtain ⟨d, hd, rfl⟩ := h
  have hs := parsePriceParts_sign pf d hd
  exact DecParts.val_nonneg d hs.1 hs.2

/-- Witness for the amended claim C5 at the concrete input "20-22". -/
theorem c5_parse_price_nonneg_witness :
    parse_price (some "20-22") = some 22 ∧ (0 : ℚ) ≤ 22 :=
  ⟨parse_price_range_example,
    c5_parse_price_nonneg (some "20-22") 22 parse_price_range_example⟩

/-- Claim C6: per-record parse failures are recoverable, not raised: the
embedded analyzer is a total function; parse_price("") and
parse_price("abc") are none; every US-exchange record whose offer amount is
uncomputable is counted in missing_data while total_ipos still counts every
input record; and analysis of a concatenation is the concatenation of the
analyses, so a failing record never stops the pass over later records. -/
theorem c6_recoverable_parse_failures :
    parse_price (some "") = none ∧ parse_price (some "abc") = none ∧
    (∀ ipos : List IpoRecord,
      (analyze_ipos ipos).2.total_ipos = ipos.length ∧
      (analyze_ipos ipos).2.missing_data = ipos.countP missingB) ∧
    (∀ xs ys : List IpoRecord,
      (analyze_ipos (xs ++ ys)).1 = (analyze_ipos xs).1 ++ (analyze_ipos ys).1) := by
  refine ⟨?_, ?_, ?_, ?_⟩
  · have h : parsePriceParts (some "") = none := by decide
    rw [parse_price, h]; rfl
  · have h : parsePriceParts (some "abc") = none := by decide
    rw [parse_price, h]; rfl
  · intro ipos
    rw [analyze_ipos_eq]
    exact ⟨rfl, rfl⟩
  · intro xs ys
    rw [analyze_ipos_eq, analyze_ipos_eq, analyze_ipos_eq]
    simp [List.filter_append]

/-- Claim C7: for every stats record, rendering an empty record sequence on
date 2024-05-01 yields a text body containing the substring
"No U.S. same-day IPOs" and the line "Date (Dubai): 2024-05-01", and the
body is exactly the no-IPO sentence, a blank line and the summary block,
with no per-record lines. -/
theorem c7_empty_report (stats : AnalysisStats) :
    strContains "No U.S. same-day IPOs" (build_email [] "2024-05-01" stats).1 ∧
    strContains "Date (Dubai): 2024-05-01" (build_email [] "2024-05-01" stats).1 ∧
    "Date (Dubai): 2024-05-01" ∈ summaryLines "2024-05-01" stats ∧
    (build_email [] "2024-05-01" stats).1 =
      joinLines ([noIpoLine, ""] ++ summaryLines "2024-05-01" stats) := by
  have hb : (build_email [] "2024-05-01" stats).1 =
      (noIpoLine ++ "\n") ++ (("" ++ "\n") ++
        ((("Date (Dubai): " ++ "2024-05-01") ++ "\n") ++
          joinLines ["Total IPOs returned: " ++ Nat.repr stats.total_ipos,
            "U.S. exchanges (NASDAQ/NYSE/AMEX): " ++ Nat.repr stats.us_ipos,
            "Missing price/shares: " ++ Nat.repr stats.missing_data,
            "Offer >= USD " ++ pyThousands MIN_OFFER_AMOUNT_USD ++ ": " ++
              Nat.repr stats.qualified, ""])) := rfl
  refine ⟨?_, ?_, ?_, rfl⟩
  · rw [hb]
    apply strContains_append_right
    apply strContains_append_right
    exact ⟨[], " with offer amount above USD 200,000,000.".data, by decide⟩
  · rw [hb]
    apply strContains_append_left
    apply strContains_append_left
    apply strContains_append_right
    apply strContains_append_right
    exact ⟨[], [], by decide⟩
  · have heq : ("Date (Dubai): " ++ "2024-05-01") = "Date (Dubai): 2024-05-01" := by decide
    have h := List.mem_cons_self ("Date (Dubai): " ++ "2024-05-01")
      ["Total IPOs returned: " ++ Nat.repr stats.total_ipos,
       "U.S. exchanges (NASDAQ/NYSE/AMEX): " ++ Nat.repr stats.us_ipos,
       "Missing price/shares: " ++ Nat.repr stats.missing_data,
       "Offer >= USD " ++ pyThousands MIN_OFFER_AMOUNT_USD ++ ": " ++
         Nat.repr stats.qualified, ""]
    exact heq ▸ h

/-- Claim C8: the subject line computed by run() is
"IPO Monitor {date} - {N} qualifying IPO(s)" with N the length of the
qualified sequence of the analyzer; with two qualifying records on 2024-05-01 it
is exactly "IPO Monitor 2024-05-01 - 2 qualifying IPO(s)". -/
theorem c8_subject_line :
    (∀ (dateIso : String) (ipos : List IpoRecord),
      runSubject dateIso ipos =
        "IPO Monitor " ++ dateIso ++ " - " ++
          Nat.repr (analyze_ipos ipos).1.length ++ " qualifying IPO(s)") ∧
    runSubject "2024-05-01" [recBig, recExact] =
      "IPO Monitor 2024-05-01 - 2 qualifying IPO(s)" := by
  refine ⟨fun d ipos => rfl, ?_⟩
  have hlen : (analyze_ipos [recBig, recExact]).1.length = 2 := by
    rw [analyze_ipos_eq]
    simp [List.filter_cons, qualifiesB_recBig, qualifiesB_recExact]
  rw [runSubject, hlen]
  decide

/-- Claim C9: analyze_ipos leaves every pre-existing field of every input
record unchanged; its qualified output is the filtered input in source
order, each record modified only by attaching the derived offer amount, and
the underlying filtered sequence is an order-preserving subsequence of the
input. -/
theorem c9_frame (ipos : List IpoRecord) :
    (analyze_ipos ipos).1 = (ipos.filter qualifiesB).map attachAmount ∧
    (∀ r : IpoRecord, (attachAmount r).symbol = r.symbol ∧
      (attachAmount r).name = r.name ∧ (attachAmount r).exchange = r.exchange ∧
      (attachAmount r).price = r.price ∧
      (attachAmount r).numberOfShares = r.numberOfShares) ∧
    List.Sublist (ipos.filter qualifiesB) ipos := by
  refine ⟨?_, fun r => ⟨rfl, rfl, rfl, rfl, rfl⟩, List.filter_sublist ipos⟩
  rw [analyze_ipos_eq]

/-- Claim C10: over any chronologically ordered trace of scheduler-loop
wake-ups, the job is invoked at most once per Dubai calendar day: once a
run completes for a date the dedupe marker blocks re-invocation for that
date. -/
theorem c10_at_most_one_run_per_day (ts : List DubaiTime)
    (hchron : List.Pairwise (fun a b => a.day ≤ b.day) ts) (d : Nat) :
    runsOnDay d (schedTrace none ts) ≤ 1 :=
  runsOnDay_le_one d none ts hchron

/-- Witness for claim C10: a trace that hits 9:00 twice on day 0 and once
on day 1 invokes the job at most once on day 0. -/
theorem c10_at_most_one_run_per_day_witness :
    List.Pairwise (fun a b : DubaiTime => a.day ≤ b.day)
      [⟨0, 9, 0⟩, ⟨0, 9, 0⟩, ⟨1, 9, 0⟩] ∧
    runsOnDay 0 (schedTrace none [⟨0, 9, 0⟩, ⟨0, 9, 0⟩, ⟨1, 9, 0⟩]) ≤ 1 :=
  ⟨by decide, c10_at_most_one_run_per_day [⟨0, 9, 0⟩, ⟨0, 9, 0⟩, ⟨1, 9, 0⟩]
    (by decide) 0⟩
